import Mathlib

/-!
Verification of the session-gated concurrency admission controller of the
Crypto gateway repository.  The development shallowly embeds the slot-pool,
session-manager, query-dispatcher and expiry-sweeper code of the GraphQL
server variants:

* `CPool` — the counter-based slot pool of the blockstream variant
  (`src/unnamed/part_007`, `MAX_CONCURRENT = 3`) and the ethvm variant
  (`src/unnamed/part_012`): an `activeCount` counter (a JS number, embedded
  as `Int`), a FIFO `waitQueue` of process ids, and a `nextProcessId`
  counter.  Ghost fields record the enqueue order and the hand-off order so
  that FIFO fairness can be stated.
* `IPool` — the indexed slot pool of the solana variant
  (`src/unnamed/part_005`): a boolean slot array `activeSlots` plus a FIFO
  `waitQueue`.
* `Gw` — the session manager, response-lifecycle release hook and TTL
  sweeper of `src/unnamed/part_007` (second server, lines 242-414); the
  solana variant `src/unnamed/part_005` lines 127-233 has the same shape.
* `EthVM` — the session lifecycle of the ethvm variant
  (`src/unnamed/part_012`), which has the release-on-response plugin but no
  TTL sweeper.
* `BsG` / `EthG` — the resolver bodies of
  `src/blockstream/blockstream_graphql.ts` and
  `src/ethvm/ethvm_graphql.ts` that the error-handling claims are about.

The per-backend address validators call external libraries and are embedded
as an abstract predicate `valid : String → Bool`, exactly as the spec treats
the `AddressValidator` leaf.  Chain adapters are abstract fallible
functions.  All mutation in the source happens in synchronous JS blocks on a
single event loop, so each handler body is one atomic step of the embedding.
-/

namespace CPool

/-- Operation alphabet of the counter pool: an `Acquire` call or a `Release`
call (`src/unnamed/part_007` lines 15-40). -/
inductive Op where
  | acquire
  | release
deriving DecidableEq, Repr

/-- State of the counter-based slot pool of `src/unnamed/part_007` lines
8-11 / `src/unnamed/part_012` lines 8-13: `active` is the JS number
`activeCount` (embedded as `Int` so that "never goes negative" is a real
statement), `queue` the `waitQueue` of queued process ids, `nextId` the
`nextProcessId` counter.  `handed` and `enqueued` are ghost logs (not in the
source state) recording, in order, the ids granted a slot by hand-off and
the ids ever appended to the queue; they let the FIFO claims be stated. -/
structure PoolState where
  active : Int
  queue : List Nat
  nextId : Nat
  handed : List Nat
  enqueued : List Nat
deriving DecidableEq, Repr

/-- Initial pool state: `activeCount = 0`, empty queue, `nextProcessId = 1`
(`src/unnamed/part_007` lines 9-11). -/
def initState : PoolState :=
  { active := 0, queue := [], nextId := 1, handed := [], enqueued := [] }

/-- `acquireSlot` of `src/unnamed/part_007` lines 15-26: if
`activeCount < MAX_CONCURRENT`, increment and return immediately (`true`);
otherwise append a fresh process id to `waitQueue` and suspend (`false`). -/
def acquireSlot (cap : Int) (s : PoolState) : PoolState × Bool :=
  if s.active < cap then
    ({ s with active := s.active + 1 }, true)
  else
    ({ s with queue := s.queue ++ [s.nextId],
              enqueued := s.enqueued ++ [s.nextId],
              nextId := s.nextId + 1 }, false)

/-- `releaseSlot` of `src/unnamed/part_007` lines 28-40 (identical in
`src/unnamed/part_012` lines 28-43): guard `if (activeCount <= 0) return;`
then decrement, shift the queue head, and if a waiter was queued re-increment
and resolve it (direct hand-off).  The whole body is synchronous JS, so it is
one atomic step of the embedding. -/
def releaseSlot (s : PoolState) : PoolState :=
  if s.active ≤ 0 then s
  else
    match s.queue with
    | [] => { s with active := s.active - 1 }
    | w :: rest =>
        { s with active := s.active - 1 + 1, queue := rest,
                 handed := s.handed ++ [w] }

/-- One pool step. -/
def step (cap : Int) (s : PoolState) : Op → PoolState
  | Op.acquire => (acquireSlot cap s).1
  | Op.release => releaseSlot s

/-- Run a finite sequence of `Acquire`/`Release` calls from the initial
state. -/
def run (cap : Int) (ops : List Op) : PoolState :=
  ops.foldl (step cap) initState

/-- Reachable-state invariant of the counter pool: the active count is
bounded, the queue is only nonempty at full capacity, the ghost hand-off log
is a prefix of the ghost enqueue log (their concatenation with the live
queue), and enqueue order is strictly increasing in process id. -/
def Good (cap : Int) (s : PoolState) : Prop :=
  0 ≤ s.active ∧ s.active ≤ cap ∧
  (s.queue ≠ [] → s.active = cap) ∧
  s.handed ++ s.queue = s.enqueued ∧
  s.enqueued.Pairwise (· < ·) ∧
  (∀ x ∈ s.enqueued, x < s.nextId)

end CPool

namespace IPool

/-- Operation alphabet of the indexed pool: `acquireSlot()` or
`releaseSlot(slotIndex?)` (`src/unnamed/part_005` lines 77-125). -/
inductive Op where
  | acquire
  | release (idx : Option Nat)
deriving DecidableEq, Repr

/-- State of the indexed slot pool of `src/unnamed/part_005` lines 32-34:
`activeSlots` is the fixed-length boolean array (`true` = held), `queue` the
`waitQueue` of suspended acquirers (represented by arrival tokens drawn from
the ghost counter `nextTok`).  `handed` and `enqueued` are ghost logs of the
hand-off order and the enqueue order. -/
structure SlotPool where
  activeSlots : List Bool
  queue : List Nat
  nextTok : Nat
  handed : List Nat
  enqueued : List Nat
deriving DecidableEq, Repr

/-- Initial state: `new Array(MAX_CONCURRENT).fill(false)`, empty queue. -/
def initState (cap : Nat) : SlotPool :=
  { activeSlots := List.replicate cap false, queue := [], nextTok := 0,
    handed := [], enqueued := [] }

/-- `acquireSlot` of `src/unnamed/part_005` lines 77-90: find the first free
slot (`findIndex(v => !v)`); if found mark it held and return its index,
otherwise push the caller onto `waitQueue` and suspend. -/
def acquireSlot (s : SlotPool) : SlotPool × Option Nat :=
  match s.activeSlots.findIdx? (fun v => v = false) with
  | some i => ({ s with activeSlots := s.activeSlots.set i true }, some i)
  | none =>
      ({ s with queue := s.queue ++ [s.nextTok],
                enqueued := s.enqueued ++ [s.nextTok],
                nextTok := s.nextTok + 1 }, none)

/-- Fallback branch of `releaseSlot` (`src/unnamed/part_005` lines 107-121):
no index given — find the first occupied slot; if none, return (no-op);
otherwise shift the queue and either hand that slot off (slot flags
untouched) or mark it free.  The result also carries the hand-off
`(waiter, slotIndex)` if one happened. -/
def releaseFallback (s : SlotPool) : SlotPool × Option (Nat × Nat) :=
  match s.activeSlots.findIdx? (fun v => v) with
  | none => (s, none)
  | some j =>
      match s.queue with
      | w :: rest => ({ s with queue := rest, handed := s.handed ++ [w] }, some (w, j))
      | [] => ({ s with activeSlots := s.activeSlots.set j false }, none)

/-- `releaseSlot(slotIndex?)` of `src/unnamed/part_005` lines 92-125: with a
valid index, shift the queue head first; if a waiter exists the slot is
handed to it directly and the slot flag is never cleared; only with an empty
queue is the slot marked free.  Out-of-range or missing index goes through
the fallback. -/
def releaseSlot (s : SlotPool) (idx : Option Nat) : SlotPool × Option (Nat × Nat) :=
  match idx with
  | some i =>
      if i < s.activeSlots.length then
        match s.queue with
        | w :: rest => ({ s with queue := rest, handed := s.handed ++ [w] }, some (w, i))
        | [] => ({ s with activeSlots := s.activeSlots.set i false }, none)
      else releaseFallback s
  | none => releaseFallback s

/-- One indexed-pool step. -/
def step (s : SlotPool) : Op → SlotPool
  | Op.acquire => (acquireSlot s).1
  | Op.release idx => (releaseSlot s idx).1

/-- Run a finite call sequence from the initial state of a pool with
`cap` slots. -/
def run (cap : Nat) (ops : List Op) : SlotPool :=
  ops.foldl step (initState cap)

/-- The number of held slots: `activeSlots.filter(Boolean).length`. -/
def activeCount (s : SlotPool) : Nat :=
  s.activeSlots.count true

/-- Ghost invariant of the indexed pool: the hand-off log is a prefix of the
enqueue log (their concatenation with the live queue), and arrival tokens
are strictly increasing. -/
def Good (s : SlotPool) : Prop :=
  s.handed ++ s.queue = s.enqueued ∧
  s.enqueued.Pairwise (· < ·) ∧
  (∀ x ∈ s.enqueued, x < s.nextTok)

end IPool

/-- Association-list lookup modelling `Map.get`: first entry with the given
key. -/
def slookup {α : Type} (id : String) : List (String × α) → Option α
  | [] => none
  | p :: rest => if p.1 = id then some p.2 else slookup id rest

/-- Occurrence count of a string in a list (used for the ghost release
logs). -/
def cnt (a : String) (l : List String) : Nat :=
  (l.filter (fun x => x = a)).length

/-- Boolean key test for association-list entries (used to model
`Map.delete` as a filter; with unique keys this is exactly deletion). -/
def keyIs {α : Type} (id : String) (p : String × α) : Bool :=
  p.1 = id

namespace Gw

/-- A stored session of `src/unnamed/part_007` lines 248-252 /
`src/unnamed/part_005` lines 36-41: bound address, `slotHeld` flag and
creation timestamp. -/
structure Sess where
  address : String
  slotHeld : Bool
  createdAt : Nat
deriving DecidableEq, Repr

/-- Combined state of the session manager: the `sessions` map (insertion
order, as a JS `Map`), the slot pool, and two ghost logs: `releaseLog`
records, in order, the session ids to which a `releaseSlot` call was
attributed, and `usedIds` the ids ever minted (so that token uniqueness,
provided by `randomBytes`, can be stated). -/
structure SysState where
  sessions : List (String × Sess)
  pool : CPool.PoolState
  releaseLog : List String
  usedIds : List String
deriving DecidableEq, Repr

/-- Initial system state. -/
def sysInit : SysState :=
  { sessions := [], pool := CPool.initState, releaseLog := [], usedIds := [] }

/-- Observable outcome of an `auth` call. -/
inductive AuthOut where
  | fail
  | success (id : String)
  | pending
deriving DecidableEq, Repr

/-- `Mutation.auth` of `src/unnamed/part_007` lines 352-369 /
`src/unnamed/part_005` lines 169-188: validate the candidate address; if
invalid return `{response:'fail', identifier:null}` without touching any
state; if valid, call `acquireSlot()` and on grant mint a fresh token and
store a session with `slotHeld = true`, `createdAt = now`.  The returned
`Nat` counts the `acquireSlot` calls made.  A call that would suspend
(pool at capacity) is modelled as `pending` with no state change: its
completion is represented by a later `auth` event, and the FIFO queueing it
goes through is verified on the pool models.  Token uniqueness of
`randomBytes(4).toString('hex')` is modelled by treating an `auth` with an
already-minted id as not completing. -/
def auth (valid : String → Bool) (cap : Int) (t : Nat) (id addr : String)
    (s : SysState) : AuthOut × SysState × Nat :=
  if valid addr = false then (AuthOut.fail, s, 0)
  else if s.pool.active < cap then
    if id ∈ s.usedIds then (AuthOut.pending, s, 1)
    else (AuthOut.success id,
      { s with sessions := s.sessions ++ [(id, ⟨addr, true, t⟩)],
               pool := (CPool.acquireSlot cap s.pool).1,
               usedIds := s.usedIds ++ [id] }, 1)
  else (AuthOut.pending, s, 1)

/-- `resolveAddress` of `src/unnamed/part_007` lines 310-318 /
`src/unnamed/part_005` lines 127-135: a well-formed address resolves to
itself with no session lookup; otherwise the identifier is looked up in the
session store, failing with `'invalid or expired session'` if absent. -/
def resolveAddress (valid : String → Bool) (sessions : List (String × Sess))
    (identifier : String) : Except String String :=
  if valid identifier then Except.ok identifier
  else
    match slookup identifier sessions with
    | none => Except.error "invalid or expired session"
    | some sess => Except.ok sess.address

/-- `Query.account` / `Query.transaction` of `src/unnamed/part_007` lines
320-349 / `src/unnamed/part_005` lines 140-166: resolve the identifier,
then invoke the chain adapter on the bound address.  The resolver body
mutates no state; the returned `Nat` counts the adapter calls made. -/
def account {α : Type} (valid : String → Bool) (sessions : List (String × Sess))
    (identifier : String) (adapter : String → Except String α) :
    Except String α × Nat :=
  match resolveAddress valid sessions identifier with
  | Except.error m => (Except.error m, 0)
  | Except.ok a => (adapter a, 1)

/-- The `willSendResponse` plugin hook of `src/unnamed/part_007` lines
379-397 / `src/unnamed/part_005` lines 198-218, fired after every request
whose variables carry `identifier = id`: if a stored session with
`slotHeld` exists for it, delete it from the store and release its slot
(the ghost `releaseLog` attributes that release to the session). -/
def willSendResponse (s : SysState) (id : String) : SysState :=
  match slookup id s.sessions with
  | none => s
  | some sess =>
      if sess.slotHeld then
        { s with sessions := s.sessions.filter (fun p => ! keyIs id p),
                 pool := CPool.releaseSlot s.pool,
                 releaseLog := s.releaseLog ++ [id] }
      else s

/-- The sweeper's expiry test `now - s.createdAt > 30_000`
(`src/unnamed/part_007` line 408); JS negative differences compare the same
as the truncated `Nat` subtraction. -/
def isExpired (t : Nat) (p : String × Sess) : Bool :=
  decide (30000 < t - p.2.createdAt)

/-- The `setInterval` expiry sweeper body of `src/unnamed/part_007` lines
405-414 / `src/unnamed/part_005` lines 224-233: at time `t`, every stored
session with `now - createdAt > 30_000` is deleted and its slot released
(one `releaseSlot` call per expired session, attributed in the ghost
log). -/
def sweep (t : Nat) (s : SysState) : SysState :=
  { s with sessions := s.sessions.filter (fun p => ! isExpired t p),
           pool := (s.sessions.filter (isExpired t)).foldl
             (fun pl _ => CPool.releaseSlot pl) s.pool,
           releaseLog := s.releaseLog ++
             (s.sessions.filter (isExpired t)).map Prod.fst }

/-- System events: a completed `auth` at time `t`, a sent response whose
request variables carried `identifier = id`, or a sweeper tick at time
`t`. -/
inductive SEv where
  | auth (t : Nat) (id addr : String)
  | respond (id : String)
  | sweep (t : Nat)
deriving DecidableEq, Repr

/-- One system step. -/
def sysStep (valid : String → Bool) (cap : Int) (s : SysState) : SEv → SysState
  | SEv.auth t id addr => (auth valid cap t id addr s).2.1
  | SEv.respond id => willSendResponse s id
  | SEv.sweep t => sweep t s

/-- Run a list of events from a given state. -/
def runFrom (valid : String → Bool) (cap : Int) (s : SysState)
    (evs : List SEv) : SysState :=
  evs.foldl (sysStep valid cap) s

/-- Run a list of events from the initial state. -/
def sysRun (valid : String → Bool) (cap : Int) (evs : List SEv) : SysState :=
  runFrom valid cap sysInit evs

/-- System invariant: every stored session holds its slot, and for every id
the attributed releases plus live store entries never exceed one per minted
token. -/
def GoodS (s : SysState) : Prop :=
  (∀ p ∈ s.sessions, p.2.slotHeld = true) ∧
  (∀ i : String,
    cnt i s.releaseLog + cnt i (s.sessions.map Prod.fst) ≤
      if i ∈ s.usedIds then 1 else 0)

end Gw

namespace EthVM

/-- State of the ethvm variant `src/unnamed/part_012`: the `sessions` map
(id → address), the `heldIdentifiers` set, the slot pool, and the ghost
release/minted logs.  This variant has no expiry sweeper. -/
structure EthState where
  sessions : List (String × String)
  held : List String
  pool : CPool.PoolState
  releaseLog : List String
  usedIds : List String
deriving DecidableEq, Repr

/-- Initial state of the ethvm variant. -/
def ethInit : EthState :=
  { sessions := [], held := [], pool := CPool.initState, releaseLog := [],
    usedIds := [] }

/-- `Mutation.auth` of `src/unnamed/part_012` lines 143-168: validate,
acquire a slot, mint a token, store it in `sessions` and mark it in
`heldIdentifiers`.  Suspension and token uniqueness are modelled as in
`Gw.auth`. -/
def auth (valid : String → Bool) (cap : Int) (id addr : String)
    (s : EthState) : EthState :=
  if valid addr = false then s
  else if s.pool.active < cap then
    if id ∈ s.usedIds then s
    else
      { s with sessions := s.sessions ++ [(id, addr)],
               held := s.held ++ [id],
               pool := (CPool.acquireSlot cap s.pool).1,
               usedIds := s.usedIds ++ [id] }
  else s

/-- The `willSendResponse` plugin of `src/unnamed/part_012` lines 178-203:
if the request used a session (`ctx.usedIdentifier` was latched) and the
identifier is still in `heldIdentifiers`, remove it from the set and release
its slot (attributed in the ghost log). -/
def pluginRelease (identifier : String) (usedSession : Bool) (s1 : EthState) :
    EthState :=
  if usedSession ∧ identifier ∈ s1.held then
    { s1 with held := s1.held.filter (fun x => ! (x = identifier : Bool)),
              pool := CPool.releaseSlot s1.pool,
              releaseLog := s1.releaseLog ++ [identifier] }
  else s1

/-- A whole query request of `src/unnamed/part_012` lines 83-140 together
with its response plugin: resolve the identifier (raw address first, then
session lookup); if neither resolves the resolver throws and the plugin does
nothing; otherwise the adapter is called (outcome `ok`), a consumed session
is deleted from the store on success (`usedSession` was latched before the
adapter call), and the plugin then releases the slot of a used identifier
still in `heldIdentifiers`. -/
def queryRequest (valid : String → Bool) (identifier : String) (ok : Bool)
    (s : EthState) : EthState :=
  match (if valid identifier then some identifier
         else slookup identifier s.sessions : Option String) with
  | none => s
  | some _ =>
      pluginRelease identifier (slookup identifier s.sessions).isSome
        (if ok ∧ (slookup identifier s.sessions).isSome then
          { s with sessions := s.sessions.filter (fun p => ! keyIs identifier p) }
        else s)

/-- Events of the ethvm variant: completed auths and query requests.  There
is no sweeper event because `src/unnamed/part_012` has no expiry
sweeper. -/
inductive EEv where
  | auth (id addr : String)
  | query (identifier : String) (ok : Bool)
deriving DecidableEq, Repr

/-- Does an event mention a given session id? -/
def mentions (id : String) : EEv → Bool
  | EEv.auth i _ => i = id
  | EEv.query i _ => i = id

/-- One ethvm step. -/
def ethStep (valid : String → Bool) (cap : Int) (s : EthState) : EEv → EthState
  | EEv.auth id addr => auth valid cap id addr s
  | EEv.query identifier ok => queryRequest valid identifier ok s

/-- Run events from a given state. -/
def runFrom (valid : String → Bool) (cap : Int) (s : EthState)
    (evs : List EEv) : EthState :=
  evs.foldl (ethStep valid cap) s

/-- Run events from the initial state. -/
def run (valid : String → Bool) (cap : Int) (evs : List EEv) : EthState :=
  runFrom valid cap ethInit evs

end EthVM

namespace BsG

/-- The catch-handler of `src/blockstream/blockstream_graphql.ts` lines
85-88: rethrow `err.message` when truthy (nonempty), else a fixed fallback
text. -/
def catchMsg (fallback m : String) : String :=
  if m = "" then fallback else m

/-- `Query.account` of `src/blockstream/blockstream_graphql.ts` lines
66-89: resolve the identifier inline (raw address first, then session
lookup), throw `'invalid or missing identifier'` if neither, call the
adapter once, delete a consumed session on success, and surface errors
through the catch-handler.  Returns the result, the session store after the
request, and the number of adapter calls made. -/
def account {α : Type} (valid : String → Bool)
    (sessions : List (String × String)) (identifier : String)
    (adapter : String → Except String α) :
    Except String α × List (String × String) × Nat :=
  let usedSession : Bool :=
    if identifier = "" then false else (slookup identifier sessions).isSome
  let addr : Option String :=
    if identifier = "" then none
    else if valid identifier then some identifier
    else slookup identifier sessions
  match addr with
  | none =>
      (Except.error (catchMsg "Failed to fetch account" "invalid or missing identifier"),
        sessions, 0)
  | some a =>
      match adapter a with
      | Except.error m =>
          (Except.error (catchMsg "Failed to fetch account" m), sessions, 1)
      | Except.ok v =>
          (Except.ok v,
            (if usedSession then sessions.filter (fun p => ! keyIs identifier p)
              else sessions), 1)

end BsG

namespace EthG

/-- An axios failure as `src/ethvm/ethvm_graphql.ts` lines 88-111 inspects
it: the error message, and optionally an upstream HTTP response with a
status code and the message extracted from its body
(`body.message || body.error`). -/
structure AxiosErr where
  message : String
  response : Option (Nat × String)
deriving DecidableEq, Repr

/-- The catch-handler of `Query.balance` in
`src/ethvm/ethvm_graphql.ts` lines 88-112: with an upstream response the
surfaced message is rebuilt as `Upstream <status>: <bodyMsg>`; without one
it is `err.message` when truthy, else a fixed fallback. -/
def balanceMsg (err : AxiosErr) : String :=
  match err.response with
  | some (st, bodyMsg) => "Upstream " ++ toString st ++ ": " ++ bodyMsg
  | none => if err.message = "" then "Failed to fetch balance" else err.message

/-- `Query.balance` of `src/ethvm/ethvm_graphql.ts` lines 84-114: one REST
call; on success its data is returned, on failure the catch-handler message
is thrown.  The `Nat` counts the REST calls made (there is no retry). -/
def balance {α : Type} (restCall : Except AxiosErr α) : Except String α × Nat :=
  match restCall with
  | Except.ok v => (Except.ok v, 1)
  | Except.error e => (Except.error (balanceMsg e), 1)

end EthG

namespace CPool

theorem goodC_init (cap : Int) (hcap : 0 ≤ cap) : Good cap initState := by
  refine ⟨le_refl 0, hcap, ?_, rfl, List.Pairwise.nil, ?_⟩ <;> simp [initState]

theorem goodC_step (cap : Int) (s : PoolState) (op : Op) (h : Good cap s) :
    Good cap (step cap s op) := by
  obtain ⟨h0, hle, hq, hg, hp, hn⟩ := h
  cases op with
  | acquire =>
      simp only [step, acquireSlot]
      by_cases hlt : s.active < cap
      · simp only [if_pos hlt]
        refine ⟨?_, ?_, ?_, hg, hp, hn⟩
        · dsimp only
          omega
        · dsimp only
          omega
        · intro hne
          exact absurd (hq hne) (by omega)
      · simp only [if_neg hlt]
        refine ⟨h0, hle, fun _ => ?_, ?_, ?_, ?_⟩
        · dsimp only
          omega
        · simp [← hg, List.append_assoc]
        · refine List.pairwise_append.2 ⟨hp, List.pairwise_singleton _ _, ?_⟩
          intro x hx y hy
          simp only [List.mem_singleton] at hy
          subst hy
          exact hn x hx
        · intro x hx
          rcases List.mem_append.1 hx with hx | hx
          · exact Nat.lt_succ_of_lt (hn x hx)
          · simp only [List.mem_singleton] at hx
            subst hx
            exact Nat.lt_succ_self _
  | release =>
      simp only [step, releaseSlot]
      by_cases hz : s.active ≤ 0
      · simp only [if_pos hz]
        exact ⟨h0, hle, hq, hg, hp, hn⟩
      · simp only [if_neg hz]
        cases hqe : s.queue with
        | nil =>
            refine ⟨?_, ?_, ?_, ?_, hp, hn⟩
            · dsimp only
              omega
            · dsimp only
              omega
            · dsimp only
              simp
            · dsimp only
              simpa [hqe] using hg
        | cons w rest =>
            have hac : s.active = cap := hq (by simp [hqe])
            refine ⟨?_, ?_, fun _ => ?_, ?_, hp, hn⟩
            · dsimp only
              omega
            · dsimp only
              omega
            · dsimp only
              omega
            · dsimp only
              rw [← hg, hqe]
              simp

theorem goodC_run (cap : Int) (hcap : 0 ≤ cap) (ops : List Op) :
    Good cap (run cap ops) := by
  rw [run]
  induction ops using List.reverseRecOn with
  | nil => exact goodC_init cap hcap
  | append_singleton l op ih =>
      rw [List.foldl_append]
      exact goodC_step cap _ op ih

end CPool

namespace IPool

/-- Every step preserves the length of the slot array, so the capacity of
the pool is fixed. -/
theorem length_step (s : SlotPool) (op : Op) :
    (step s op).activeSlots.length = s.activeSlots.length := by
  cases op with
  | acquire =>
      simp only [step, acquireSlot]
      cases h : s.activeSlots.findIdx? (fun v => v = false) with
      | none => rfl
      | some i => simp
  | release idx =>
      simp only [step, releaseSlot]
      cases idx with
      | none =>
          simp only [releaseFallback]
          cases h : s.activeSlots.findIdx? (fun v => v) with
          | none => rfl
          | some j =>
              cases hq : s.queue with
              | cons w rest => rfl
              | nil => simp
      | some i =>
          by_cases hi : i < s.activeSlots.length
          · simp only [if_pos hi]
            cases hq : s.queue with
            | cons w rest => rfl
            | nil => simp
          · simp only [if_neg hi, releaseFallback]
            cases h : s.activeSlots.findIdx? (fun v => v) with
            | none => rfl
            | some j =>
                cases hq : s.queue with
                | cons w rest => rfl
                | nil => simp

theorem length_run (cap : Nat) (ops : List Op) :
    (run cap ops).activeSlots.length = cap := by
  rw [run]
  induction ops using List.reverseRecOn with
  | nil => simp [initState]
  | append_singleton l op ih =>
      rw [List.foldl_append, List.foldl_cons, List.foldl_nil, length_step]
      exact ih

/-- If no slot is held, `findIndex(v => v)` finds nothing. -/
theorem findIdx_none_of_count_zero (l : List Bool) (h : l.count true = 0) :
    l.findIdx? (fun v => v) = none := by
  induction l with
  | nil => rfl
  | cons b t ih =>
      cases b with
      | true => simp at h
      | false =>
          rw [List.count_cons] at h
          simp only [List.findIdx?_cons]
          simpa using ih (by simpa using h)

/-- `releaseSlot()` with no occupied slot is a complete no-op: the fallback
scan finds no held slot and returns immediately. -/
theorem releaseFallback_noop (s : SlotPool) (h : activeCount s = 0) :
    releaseFallback s = (s, none) := by
  rw [releaseFallback, findIdx_none_of_count_zero s.activeSlots h]

theorem goodI_init (cap : Nat) : Good (initState cap) := by
  refine ⟨rfl, List.Pairwise.nil, ?_⟩
  simp [initState]

theorem goodI_step (s : SlotPool) (op : Op) (h : Good s) : Good (step s op) := by
  obtain ⟨hg, hp, hn⟩ := h
  have hpop : ∀ w rest, s.queue = w :: rest →
      Good { s with queue := rest, handed := s.handed ++ [w] } := by
    intro w rest hq
    refine ⟨?_, hp, hn⟩
    dsimp only
    rw [← hg, hq]
    simp
  cases op with
  | acquire =>
      simp only [step, acquireSlot]
      cases hf : s.activeSlots.findIdx? (fun v => v = false) with
      | some i => exact ⟨hg, hp, hn⟩
      | none =>
          refine ⟨?_, ?_, ?_⟩
          · dsimp only
            rw [← hg]
            simp
          · dsimp only
            refine List.pairwise_append.2 ⟨hp, List.pairwise_singleton _ _, ?_⟩
            intro x hx y hy
            simp only [List.mem_singleton] at hy
            subst hy
            exact hn x hx
          · dsimp only
            intro x hx
            rcases List.mem_append.1 hx with hx | hx
            · exact Nat.lt_succ_of_lt (hn x hx)
            · simp only [List.mem_singleton] at hx
              subst hx
              exact Nat.lt_succ_self _
  | release idx =>
      have hfb : Good (releaseFallback s).1 := by
        simp only [releaseFallback]
        cases hfi : s.activeSlots.findIdx? (fun v => v) with
        | none => exact ⟨hg, hp, hn⟩
        | some j =>
            cases hq : s.queue with
            | cons w rest => exact hpop w rest hq
            | nil => exact ⟨by simpa [hq] using hg, hp, hn⟩
      simp only [step, releaseSlot]
      cases idx with
      | none => exact hfb
      | some i =>
          by_cases hi : i < s.activeSlots.length
          · simp only [if_pos hi]
            cases hq : s.queue with
            | cons w rest => exact hpop w rest hq
            | nil => exact ⟨by simpa [hq] using hg, hp, hn⟩
          · simp only [if_neg hi]
            exact hfb

theorem goodI_run (cap : Nat) (ops : List Op) : Good (run cap ops) := by
  rw [run]
  induction ops using List.reverseRecOn with
  | nil => exact goodI_init cap
  | append_singleton l op ih =>
      rw [List.foldl_append, List.foldl_cons, List.foldl_nil]
      exact goodI_step _ op ih

end IPool

/-- Shared list fact behind FIFO fairness: if the hand-off log concatenated
with the live queue equals the strictly increasing enqueue log, then an
earlier-queued waiter `a` is handed a slot strictly before a later-queued
waiter `b`. -/
theorem handed_split_of_prefix (handed queue enq : List Nat) (a b : Nat)
    (hg : handed ++ queue = enq) (hp : enq.Pairwise (· < ·))
    (hab : a < b) (hb : b ∈ handed) (ha : a ∈ enq) :
    ∃ l1 l2, handed = l1 ++ a :: l2 ∧ b ∈ l2 := by
  have hpre : handed <+: enq := ⟨queue, hg⟩
  have hph : handed.Pairwise (· < ·) := hp.sublist hpre.sublist
  have hah : a ∈ handed := by
    rw [← hg] at ha
    rcases List.mem_append.1 ha with h | h
    · exact h
    · exfalso
      rw [← hg] at hp
      have hba : b < a := (List.pairwise_append.1 hp).2.2 b hb a h
      omega
  obtain ⟨l1, l2, hsplit⟩ := List.append_of_mem hah
  subst hsplit
  refine ⟨l1, l2, rfl, ?_⟩
  rcases List.mem_append.1 hb with h | h
  · exfalso
    have hba : b < a := (List.pairwise_append.1 hph).2.2 b h a (List.mem_cons_self a l2)
    omega
  · rcases List.mem_cons.1 h with h | h
    · omega
    · exact h

/-- C1.  For every finite sequence of `Acquire`/`Release` calls from the
initial state, the held-slot count stays within `0 ≤ active ≤ capacity`, in
both pool embeddings (the `activeCount` counter of
`src/unnamed/part_007`/`part_012` and the boolean slot array of
`src/unnamed/part_005`, whose length is preserved); and a `Release` call
made when no slot is held is a no-op that never decrements `active` below
zero (`if (activeCount <= 0) return;`, resp. the failed `findIndex(v => v)`
scan). -/
theorem slotPool_capacity_invariant (cap : Int) (capB : Nat) (hcap : 0 ≤ cap) :
    (∀ ops : List CPool.Op,
        0 ≤ (CPool.run cap ops).active ∧ (CPool.run cap ops).active ≤ cap) ∧
    (∀ s : CPool.PoolState, s.active = 0 → CPool.releaseSlot s = s) ∧
    (∀ ops : List IPool.Op,
        (IPool.run capB ops).activeSlots.length = capB ∧
        IPool.activeCount (IPool.run capB ops) ≤ capB) ∧
    (∀ s : IPool.SlotPool, IPool.activeCount s = 0 →
        IPool.releaseSlot s none = (s, none)) := by
  refine ⟨?_, ?_, ?_, ?_⟩
  · intro ops
    obtain ⟨h0, hle, _⟩ := CPool.goodC_run cap hcap ops
    exact ⟨h0, hle⟩
  · intro s hs
    rw [CPool.releaseSlot, if_pos (by omega)]
  · intro ops
    refine ⟨IPool.length_run capB ops, ?_⟩
    calc IPool.activeCount (IPool.run capB ops)
        ≤ (IPool.run capB ops).activeSlots.length := List.count_le_length _ _
      _ = capB := IPool.length_run capB ops
  · intro s hs
    rw [IPool.releaseSlot]
    exact IPool.releaseFallback_noop s hs

/-- Witness for C1 at capacity 3 (counter pool) and capacity 1 (indexed
pool) on a concrete call sequence. -/
theorem slotPool_capacity_invariant_witness :
    (0 ≤ (CPool.run 3 [CPool.Op.acquire, CPool.Op.release, CPool.Op.release]).active ∧
      (CPool.run 3 [CPool.Op.acquire, CPool.Op.release, CPool.Op.release]).active ≤ 3) ∧
    IPool.activeCount (IPool.run 1 [IPool.Op.acquire, IPool.Op.release (some 0)]) ≤ 1 :=
  ⟨(slotPool_capacity_invariant 3 1 (by decide)).1
      [CPool.Op.acquire, CPool.Op.release, CPool.Op.release],
   ((slotPool_capacity_invariant 3 1 (by decide)).2.2.1
      [IPool.Op.acquire, IPool.Op.release (some 0)]).2⟩

/-- C3.  When `Release` runs while the wait queue is nonempty, the head
waiter is granted the freed slot in the same atomic step: in the counter
pool the active count after the release equals its pre-release value (the
decrement and hand-off re-increment are one synchronous block) and stays at
capacity, and in the indexed pool the slot flags are literally untouched —
the slot is never marked free in between — while the queue head receives
exactly the released index. -/
theorem release_direct_handoff :
    (∀ (cap : Int) (ops : List CPool.Op) (w : Nat) (rest : List Nat),
        0 < cap → (CPool.run cap ops).queue = w :: rest →
        (CPool.releaseSlot (CPool.run cap ops)).active = (CPool.run cap ops).active ∧
        (CPool.releaseSlot (CPool.run cap ops)).queue = rest ∧
        (CPool.releaseSlot (CPool.run cap ops)).handed = (CPool.run cap ops).handed ++ [w] ∧
        (CPool.run cap ops).active = cap) ∧
    (∀ (s : IPool.SlotPool) (i w : Nat) (rest : List Nat),
        i < s.activeSlots.length → s.queue = w :: rest →
        (IPool.releaseSlot s (some i)).1.activeSlots = s.activeSlots ∧
        (IPool.releaseSlot s (some i)).1.queue = rest ∧
        (IPool.releaseSlot s (some i)).2 = some (w, i) ∧
        (IPool.releaseSlot s (some i)).1.handed = s.handed ++ [w]) := by
  constructor
  · intro cap ops w rest hcap hq
    obtain ⟨h0, hle, hfull, _⟩ := CPool.goodC_run cap (by omega) ops
    have hac : (CPool.run cap ops).active = cap := hfull (by simp [hq])
    rw [CPool.releaseSlot, if_neg (by omega), hq]
    refine ⟨?_, rfl, rfl, hac⟩
    dsimp only
    omega
  · intro s i w rest hi hq
    rw [IPool.releaseSlot, if_pos hi, hq]
    exact ⟨rfl, rfl, rfl, rfl⟩

/-- Witness for C3: capacity-1 counter pool with a queued second acquirer,
and an indexed pool holding slot 0 with one queued waiter. -/
theorem release_direct_handoff_witness :
    ((CPool.releaseSlot (CPool.run 1 [CPool.Op.acquire, CPool.Op.acquire])).active =
        (CPool.run 1 [CPool.Op.acquire, CPool.Op.acquire]).active ∧
      (CPool.releaseSlot (CPool.run 1 [CPool.Op.acquire, CPool.Op.acquire])).queue = [] ∧
      (CPool.releaseSlot (CPool.run 1 [CPool.Op.acquire, CPool.Op.acquire])).handed =
        (CPool.run 1 [CPool.Op.acquire, CPool.Op.acquire]).handed ++ [1] ∧
      (CPool.run 1 [CPool.Op.acquire, CPool.Op.acquire]).active = 1) ∧
    ((IPool.releaseSlot ⟨[true], [7], 8, [], [7]⟩ (some 0)).1.activeSlots = [true] ∧
      (IPool.releaseSlot ⟨[true], [7], 8, [], [7]⟩ (some 0)).1.queue = [] ∧
      (IPool.releaseSlot ⟨[true], [7], 8, [], [7]⟩ (some 0)).2 = some (7, 0) ∧
      (IPool.releaseSlot ⟨[true], [7], 8, [], [7]⟩ (some 0)).1.handed = [] ++ [7]) :=
  ⟨release_direct_handoff.1 1 [CPool.Op.acquire, CPool.Op.acquire] 1 [] (by decide) (by decide),
   release_direct_handoff.2 ⟨[true], [7], 8, [], [7]⟩ 0 7 [] (by decide) (by decide)⟩

/-- C4.  FIFO fairness in both pool embeddings: if waiter `a` was queued
strictly before waiter `b` (arrival tokens increase strictly, so `a < b`)
and `b` has been granted a slot by hand-off, then `a` was granted one
strictly earlier in the hand-off order, whatever the interleaving of
`Acquire`/`Release` calls was. -/
theorem fifo_grant_order :
    (∀ (cap : Int) (ops : List CPool.Op) (a b : Nat), 0 ≤ cap → a < b →
        b ∈ (CPool.run cap ops).handed → a ∈ (CPool.run cap ops).enqueued →
        ∃ l1 l2, (CPool.run cap ops).handed = l1 ++ a :: l2 ∧ b ∈ l2) ∧
    (∀ (cap : Nat) (ops : List IPool.Op) (a b : Nat), a < b →
        b ∈ (IPool.run cap ops).handed → a ∈ (IPool.run cap ops).enqueued →
        ∃ l1 l2, (IPool.run cap ops).handed = l1 ++ a :: l2 ∧ b ∈ l2) := by
  constructor
  · intro cap ops a b hcap hab hb ha
    obtain ⟨_, _, _, hg, hp, _⟩ := CPool.goodC_run cap hcap ops
    exact handed_split_of_prefix _ _ _ a b hg hp hab hb ha
  · intro cap ops a b hab hb ha
    obtain ⟨hg, hp, _⟩ := IPool.goodI_run cap ops
    exact handed_split_of_prefix _ _ _ a b hg hp hab hb ha

/-- Witness for C4: capacity-1 pools in which two acquirers queue up and two
releases hand their slots over in arrival order. -/
theorem fifo_grant_order_witness :
    (∃ l1 l2,
        (CPool.run 1 [CPool.Op.acquire, CPool.Op.acquire, CPool.Op.acquire,
            CPool.Op.release, CPool.Op.release]).handed = l1 ++ 1 :: l2 ∧ 2 ∈ l2) ∧
    (∃ l1 l2,
        (IPool.run 1 [IPool.Op.acquire, IPool.Op.acquire, IPool.Op.acquire,
            IPool.Op.release (some 0), IPool.Op.release (some 0)]).handed =
          l1 ++ 0 :: l2 ∧ 1 ∈ l2) :=
  ⟨fifo_grant_order.1 1
      [CPool.Op.acquire, CPool.Op.acquire, CPool.Op.acquire,
        CPool.Op.release, CPool.Op.release] 1 2 (by decide) (by decide)
      (by decide) (by decide),
   fifo_grant_order.2 1
      [IPool.Op.acquire, IPool.Op.acquire, IPool.Op.acquire,
        IPool.Op.release (some 0), IPool.Op.release (some 0)] 0 1 (by decide)
      (by decide) (by decide)⟩

theorem cnt_nil (a : String) : cnt a [] = 0 := rfl

theorem cnt_cons (a b : String) (l : List String) :
    cnt a (b :: l) = (if b = a then 1 else 0) + cnt a l := by
  by_cases h : b = a
  · simp only [cnt, List.filter_cons, h, decide_True, if_true, List.length_cons]
    omega
  · simp [cnt, List.filter_cons, h]

theorem cnt_append (a : String) (l1 l2 : List String) :
    cnt a (l1 ++ l2) = cnt a l1 + cnt a l2 := by
  simp [cnt, List.filter_append]

theorem cnt_singleton (a b : String) : cnt a [b] = if b = a then 1 else 0 := by
  rw [show ([b] : List String) = b :: [] from rfl, cnt_cons, cnt_nil]
  omega

theorem one_le_cnt_of_mem (a : String) (l : List String) (h : a ∈ l) :
    1 ≤ cnt a l := by
  induction l with
  | nil => simp at h
  | cons b t ih =>
      rw [cnt_cons]
      rcases List.mem_cons.1 h with h | h
      · subst h
        simp
      · have := ih h
        omega

theorem cnt_sublist_le (a : String) {l1 l2 : List String} (h : List.Sublist l1 l2) :
    cnt a l1 ≤ cnt a l2 :=
  List.Sublist.length_le (h.filter _)

theorem cnt_filter_map_le {α : Type} (a : String) (q : α → Bool) (f : α → String)
    (l : List α) : cnt a ((l.filter q).map f) ≤ cnt a (l.map f) :=
  cnt_sublist_le a ((List.filter_sublist l).map f)

theorem cnt_filter_partition {α : Type} (a : String) (q : α → Bool) (f : α → String)
    (l : List α) :
    cnt a ((l.filter q).map f) + cnt a ((l.filter (fun x => ! q x)).map f) =
      cnt a (l.map f) := by
  induction l with
  | nil => rfl
  | cons x t ih =>
      cases hq : q x with
      | true => simp [List.filter_cons, hq, cnt_cons, ← ih]; omega
      | false => simp [List.filter_cons, hq, cnt_cons, ← ih]; omega

theorem slookup_some_mem {α : Type} (id : String) (l : List (String × α)) (e : α)
    (h : slookup id l = some e) : (id, e) ∈ l := by
  induction l with
  | nil => simp [slookup] at h
  | cons p t ih =>
      rw [slookup] at h
      by_cases hp : p.1 = id
      · rw [if_pos hp] at h
        injection h with h
        subst h
        subst hp
        exact List.mem_cons_self p t
      · rw [if_neg hp] at h
        exact List.mem_cons_of_mem p (ih h)

theorem one_le_cnt_keys_of_slookup_some {α : Type} (id : String)
    (l : List (String × α)) (e : α) (h : slookup id l = some e) :
    1 ≤ cnt id (l.map Prod.fst) := by
  refine one_le_cnt_of_mem id _ ?_
  exact List.mem_map.2 ⟨(id, e), slookup_some_mem id l e h, rfl⟩

theorem slookup_eq_none_of_cnt_zero {α : Type} (id : String)
    (l : List (String × α)) (h : cnt id (l.map Prod.fst) = 0) :
    slookup id l = none := by
  induction l with
  | nil => rfl
  | cons p t ih =>
      rw [List.map_cons, cnt_cons] at h
      rw [slookup]
      by_cases hp : p.1 = id
      · rw [if_pos hp] at h
        omega
      · rw [if_neg hp]
        exact ih (by rw [if_neg hp] at h; omega)

theorem slookup_append_self {α : Type} (id : String) (l : List (String × α))
    (e : α) (h : slookup id l = none) :
    slookup id (l ++ [(id, e)]) = some e := by
  induction l with
  | nil => simp [slookup]
  | cons p t ih =>
      rw [slookup] at h
      by_cases hp : p.1 = id
      · rw [if_pos hp] at h
        exact absurd h (by simp)
      · rw [if_neg hp] at h
        rw [List.cons_append, slookup, if_neg hp]
        exact ih h

theorem cnt_keys_filter_self {α : Type} (id : String) (l : List (String × α)) :
    cnt id ((l.filter (fun p => ! keyIs id p)).map Prod.fst) = 0 := by
  induction l with
  | nil => rfl
  | cons p t ih =>
      rw [List.filter_cons]
      simp only [keyIs] at ih ⊢
      by_cases hp : p.1 = id
      · simp [hp, ih]
      · simp [hp, cnt_cons, ih]

namespace Gw

theorem goodS_init : GoodS sysInit := by
  constructor
  · intro p hp
    simp [sysInit] at hp
  · intro i
    simp [sysInit, cnt_nil]

theorem goodS_step (valid : String → Bool) (cap : Int) (s : SysState) (e : SEv)
    (h : GoodS s) : GoodS (sysStep valid cap s e) := by
  obtain ⟨h1, h2⟩ := h
  cases e with
  | auth t id addr =>
      simp only [sysStep, auth]
      by_cases hv : valid addr = false
      · rw [if_pos hv]
        exact ⟨h1, h2⟩
      · rw [if_neg hv]
        by_cases hful : s.pool.active < cap
        · rw [if_pos hful]
          by_cases hused : id ∈ s.usedIds
          · rw [if_pos hused]
            exact ⟨h1, h2⟩
          · rw [if_neg hused]
            constructor
            · intro p hp
              dsimp only at hp
              rcases List.mem_append.1 hp with hp | hp
              · exact h1 p hp
              · simp only [List.mem_singleton] at hp
                subst hp
                rfl
            · intro i
              dsimp only
              rw [List.map_append, List.map_cons, List.map_nil, cnt_append,
                cnt_singleton]
              by_cases hii : i = id
              · subst hii
                have := h2 i
                rw [if_neg hused] at this
                have hz : cnt i s.releaseLog = 0 ∧
                    cnt i (s.sessions.map Prod.fst) = 0 := by omega
                rw [hz.1, hz.2, if_pos (by simp)]
                simp
              · have hmem : (i ∈ s.usedIds ++ [id]) ↔ i ∈ s.usedIds := by
                  simp [List.mem_append, hii]
                have := h2 i
                rw [if_neg (fun hh : id = i => hii hh.symm)]
                by_cases hiu : i ∈ s.usedIds
                · rw [if_pos (hmem.2 hiu)]
                  rw [if_pos hiu] at this
                  omega
                · rw [if_neg (fun hh => hiu (hmem.1 hh))]
                  rw [if_neg hiu] at this
                  omega
        · rw [if_neg hful]
          exact ⟨h1, h2⟩
  | respond id =>
      simp only [sysStep, willSendResponse]
      cases hlk : slookup id s.sessions with
      | none => exact ⟨h1, h2⟩
      | some sess =>
          dsimp only
          by_cases hsh : sess.slotHeld
          · rw [if_pos hsh]
            constructor
            · intro p hp
              exact h1 p (List.mem_of_mem_filter hp)
            · intro i
              dsimp only
              rw [cnt_append, cnt_singleton]
              have hflt : cnt i ((s.sessions.filter (fun p => ! keyIs id p)).map Prod.fst) ≤
                  cnt i (s.sessions.map Prod.fst) :=
                cnt_filter_map_le i _ _ s.sessions
              have := h2 i
              by_cases hii : id = i
              · subst hii
                have hone : 1 ≤ cnt id (s.sessions.map Prod.fst) :=
                  one_le_cnt_keys_of_slookup_some id s.sessions sess hlk
                have hzero : cnt id ((s.sessions.filter (fun p => ! keyIs id p)).map Prod.fst) = 0 :=
                  cnt_keys_filter_self id s.sessions
                rw [hzero, if_pos rfl]
                omega
              · rw [if_neg hii]
                have hflt2 : cnt i ((s.sessions.filter (fun p => ! keyIs id p)).map Prod.fst) ≤
                    cnt i (s.sessions.map Prod.fst) := hflt
                omega
          · rw [if_neg hsh]
            exact ⟨h1, h2⟩
  | sweep t =>
      simp only [sysStep, sweep]
      constructor
      · intro p hp
        exact h1 p (List.mem_of_mem_filter hp)
      · intro i
        dsimp only
        rw [cnt_append]
        have hpart := cnt_filter_partition i (isExpired t) Prod.fst s.sessions
        have := h2 i
        omega

theorem goodS_runFrom (valid : String → Bool) (cap : Int) (evs : List SEv) :
    ∀ s : SysState, GoodS s → GoodS (runFrom valid cap s evs) := by
  induction evs with
  | nil => intro s h; exact h
  | cons e t ih =>
      intro s h
      rw [runFrom, List.foldl_cons]
      exact ih _ (goodS_step valid cap s e h)

theorem goodS_sysRun (valid : String → Bool) (cap : Int) (evs : List SEv) :
    GoodS (sysRun valid cap evs) :=
  goodS_runFrom valid cap evs sysInit goodS_init

theorem cnt_log_le_one (s : SysState) (h : GoodS s) (i : String) :
    cnt i s.releaseLog ≤ 1 := by
  have := h.2 i
  by_cases hiu : i ∈ s.usedIds
  · rw [if_pos hiu] at this
    omega
  · rw [if_neg hiu] at this
    omega

theorem cnt_log_step_mono (valid : String → Bool) (cap : Int) (s : SysState)
    (e : SEv) (i : String) :
    cnt i s.releaseLog ≤ cnt i (sysStep valid cap s e).releaseLog := by
  cases e with
  | auth t id addr =>
      simp only [sysStep, auth]
      by_cases hv : valid addr = false
      · rw [if_pos hv]
      · rw [if_neg hv]
        by_cases hful : s.pool.active < cap
        · rw [if_pos hful]
          by_cases hused : id ∈ s.usedIds
          · rw [if_pos hused]
          · rw [if_neg hused]
        · rw [if_neg hful]
  | respond id =>
      simp only [sysStep, willSendResponse]
      cases hlk : slookup id s.sessions with
      | none => exact le_refl _
      | some sess =>
          dsimp only
          by_cases hsh : sess.slotHeld
          · rw [if_pos hsh]
            dsimp only
            rw [cnt_append]
            omega
          · rw [if_neg hsh]
  | sweep t =>
      simp only [sysStep, sweep]
      rw [cnt_append]
      omega

theorem cnt_log_runFrom_mono (valid : String → Bool) (cap : Int)
    (evs : List SEv) : ∀ (s : SysState) (i : String),
    cnt i s.releaseLog ≤ cnt i (runFrom valid cap s evs).releaseLog := by
  induction evs with
  | nil => intro s i; exact le_refl _
  | cons e t ih =>
      intro s i
      rw [runFrom, List.foldl_cons]
      exact le_trans (cnt_log_step_mono valid cap s e i) (ih _ i)

theorem sysRun_append (valid : String → Bool) (cap : Int)
    (l1 l2 : List SEv) :
    sysRun valid cap (l1 ++ l2) = runFrom valid cap (sysRun valid cap l1) l2 := by
  simp [sysRun, runFrom, List.foldl_append]

end Gw

namespace EthVM

theorem auth_releaseLog (valid : String → Bool) (cap : Int) (id addr : String)
    (s : EthState) : (auth valid cap id addr s).releaseLog = s.releaseLog := by
  rw [auth]
  by_cases hv : valid addr = false
  · rw [if_pos hv]
  · rw [if_neg hv]
    by_cases hful : s.pool.active < cap
    · rw [if_pos hful]
      by_cases hu : id ∈ s.usedIds
      · rw [if_pos hu]
      · rw [if_neg hu]
    · rw [if_neg hful]

theorem pluginRelease_cnt (identifier : String) (usedSession : Bool)
    (s1 : EthState) (i : String) (hne : ¬ identifier = i) :
    cnt i (pluginRelease identifier usedSession s1).releaseLog =
      cnt i s1.releaseLog := by
  rw [pluginRelease]
  split_ifs with hh
  · dsimp only
    rw [cnt_append, cnt_singleton, if_neg hne]
    omega
  · rfl


theorem queryRequest_cnt (valid : String → Bool) (identifier : String)
    (ok : Bool) (s : EthState) (i : String) (hne : ¬ identifier = i) :
    cnt i (queryRequest valid identifier ok s).releaseLog =
      cnt i s.releaseLog := by
  rw [queryRequest]
  cases hsc : (if valid identifier then some identifier
      else slookup identifier s.sessions : Option String) with
  | none => rfl
  | some a =>
      rw [pluginRelease_cnt identifier _ _ i hne]
      split_ifs with hh
      · rfl
      · rfl

theorem step_cnt_of_not_mention (valid : String → Bool) (cap : Int)
    (s : EthState) (e : EEv) (i : String) (h : mentions i e = false) :
    cnt i (ethStep valid cap s e).releaseLog = cnt i s.releaseLog := by
  cases e with
  | auth id addr =>
      simp only [ethStep]
      rw [auth_releaseLog]
  | query identifier ok =>
      have hne : ¬ identifier = i := by
        simpa [mentions] using h
      simp only [ethStep]
      exact queryRequest_cnt valid identifier ok s i hne

theorem runFrom_cnt_of_no_mention (valid : String → Bool) (cap : Int)
    (i : String) : ∀ (evs : List EEv) (s : EthState),
    cnt i s.releaseLog = 0 → (∀ e ∈ evs, mentions i e = false) →
    cnt i (runFrom valid cap s evs).releaseLog = 0 := by
  intro evs
  induction evs with
  | nil => intro s h0 _; exact h0
  | cons e t ih =>
      intro s h0 hm
      rw [runFrom, List.foldl_cons]
      refine ih _ ?_ (fun x hx => hm x (List.mem_cons_of_mem e hx))
      rw [step_cnt_of_not_mention valid cap s e i (hm e (List.mem_cons_self e t))]
      exact h0

end EthVM

/-- C2 (counterexample).  In the ethvm variant (`src/unnamed/part_012`) a
session minted by a successful `auth` and never mentioned again is never
released: there is no expiry sweeper, so after the trace
`[auth "ab" "0xA"]` the session exists but the number of releases
attributable to it is `0`, not `1`. -/
theorem exactly_once_release_counterexample :
    (EthVM.run (fun a => a = "0xA") 3 [EthVM.EEv.auth "ab" "0xA"]).sessions =
      [("ab", "0xA")] ∧
    cnt "ab" (EthVM.run (fun a => a = "0xA") 3
        [EthVM.EEv.auth "ab" "0xA"]).releaseLog = 0 ∧
    ¬ cnt "ab" (EthVM.run (fun a => a = "0xA") 3
        [EthVM.EEv.auth "ab" "0xA"]).releaseLog = 1 := by
  refine ⟨?_, ?_, ?_⟩ <;> decide

/-- C2 (amended).  (i) In every variant no session is ever released twice:
in the sweeper variants (`src/unnamed/part_007` second server,
`src/unnamed/part_005`) at most one release is attributable to any id over
any event sequence.  (ii) A session live in the store when a response
carrying its identifier is sent is released exactly once, whatever happens
afterwards.  (iii) A session live in the store when the sweeper fires past
its TTL is released exactly once, whatever happens afterwards.  (iv) In the
ethvm variant (`src/unnamed/part_012`), which has no sweeper, a session
whose id is never mentioned after its auth is never released (zero
releases). -/
theorem exactly_once_release_amended :
    (∀ (valid : String → Bool) (cap : Int) (evs : List Gw.SEv) (id : String),
        cnt id (Gw.sysRun valid cap evs).releaseLog ≤ 1) ∧
    (∀ (valid : String → Bool) (cap : Int) (pre post : List Gw.SEv)
        (id : String) (e : Gw.Sess),
        slookup id (Gw.sysRun valid cap pre).sessions = some e →
        cnt id (Gw.sysRun valid cap
          (pre ++ Gw.SEv.respond id :: post)).releaseLog = 1) ∧
    (∀ (valid : String → Bool) (cap : Int) (pre post : List Gw.SEv)
        (id : String) (e : Gw.Sess) (t : Nat),
        slookup id (Gw.sysRun valid cap pre).sessions = some e →
        30000 < t - e.createdAt →
        cnt id (Gw.sysRun valid cap
          (pre ++ Gw.SEv.sweep t :: post)).releaseLog = 1) ∧
    (∀ (valid : String → Bool) (cap : Int) (id addr : String)
        (evs : List EthVM.EEv),
        (∀ e ∈ evs, EthVM.mentions id e = false) →
        cnt id (EthVM.run valid cap
          (EthVM.EEv.auth id addr :: evs)).releaseLog = 0) := by
  refine ⟨?_, ?_, ?_, ?_⟩
  · intro valid cap evs id
    exact Gw.cnt_log_le_one _ (Gw.goodS_sysRun valid cap evs) id
  · intro valid cap pre post id e hlk
    have hgood := Gw.goodS_sysRun valid cap pre
    have hheld : e.slotHeld = true :=
      hgood.1 (id, e) (slookup_some_mem id _ e hlk)
    have hk1 : 1 ≤ cnt id ((Gw.sysRun valid cap pre).sessions.map Prod.fst) :=
      one_le_cnt_keys_of_slookup_some id _ e hlk
    have hlog0 : cnt id (Gw.sysRun valid cap pre).releaseLog = 0 := by
      have h2 := hgood.2 id
      by_cases hiu : id ∈ (Gw.sysRun valid cap pre).usedIds
      · rw [if_pos hiu] at h2
        omega
      · rw [if_neg hiu] at h2
        omega
    have hstep : cnt id (Gw.sysStep valid cap (Gw.sysRun valid cap pre)
        (Gw.SEv.respond id)).releaseLog = 1 := by
      simp only [Gw.sysStep, Gw.willSendResponse, hlk]
      rw [if_pos hheld]
      dsimp only
      rw [cnt_append, cnt_singleton, if_pos rfl, hlog0]
    have hdec : Gw.sysRun valid cap (pre ++ Gw.SEv.respond id :: post) =
        Gw.runFrom valid cap (Gw.sysStep valid cap (Gw.sysRun valid cap pre)
          (Gw.SEv.respond id)) post := by
      rw [show pre ++ Gw.SEv.respond id :: post =
            (pre ++ [Gw.SEv.respond id]) ++ post by simp,
          Gw.sysRun_append, Gw.sysRun_append]
      rfl
    rw [hdec]
    have hmono := Gw.cnt_log_runFrom_mono valid cap post
      (Gw.sysStep valid cap (Gw.sysRun valid cap pre) (Gw.SEv.respond id)) id
    have hle1 : cnt id (Gw.runFrom valid cap
        (Gw.sysStep valid cap (Gw.sysRun valid cap pre)
          (Gw.SEv.respond id)) post).releaseLog ≤ 1 := by
      refine Gw.cnt_log_le_one _ ?_ id
      exact Gw.goodS_runFrom valid cap post _
        (Gw.goodS_step valid cap _ _ hgood)
    omega
  · intro valid cap pre post id e t hlk hexp
    have hgood := Gw.goodS_sysRun valid cap pre
    have hmem : (id, e) ∈ (Gw.sysRun valid cap pre).sessions :=
      slookup_some_mem id _ e hlk
    have hstep : 1 ≤ cnt id (Gw.sysStep valid cap (Gw.sysRun valid cap pre)
        (Gw.SEv.sweep t)).releaseLog := by
      simp only [Gw.sysStep, Gw.sweep]
      rw [cnt_append]
      have hin : (id, e) ∈ (Gw.sysRun valid cap pre).sessions.filter
          (Gw.isExpired t) := by
        refine List.mem_filter.2 ⟨hmem, ?_⟩
        simp only [Gw.isExpired]
        exact decide_eq_true hexp
      have : 1 ≤ cnt id (((Gw.sysRun valid cap pre).sessions.filter
          (Gw.isExpired t)).map Prod.fst) := by
        refine one_le_cnt_of_mem id _ ?_
        exact List.mem_map.2 ⟨(id, e), hin, rfl⟩
      omega
    have hdec : Gw.sysRun valid cap (pre ++ Gw.SEv.sweep t :: post) =
        Gw.runFrom valid cap (Gw.sysStep valid cap (Gw.sysRun valid cap pre)
          (Gw.SEv.sweep t)) post := by
      rw [show pre ++ Gw.SEv.sweep t :: post =
            (pre ++ [Gw.SEv.sweep t]) ++ post by simp,
          Gw.sysRun_append, Gw.sysRun_append]
      rfl
    rw [hdec]
    have hmono := Gw.cnt_log_runFrom_mono valid cap post
      (Gw.sysStep valid cap (Gw.sysRun valid cap pre) (Gw.SEv.sweep t)) id
    have hle1 : cnt id (Gw.runFrom valid cap
        (Gw.sysStep valid cap (Gw.sysRun valid cap pre)
          (Gw.SEv.sweep t)) post).releaseLog ≤ 1 := by
      refine Gw.cnt_log_le_one _ ?_ id
      exact Gw.goodS_runFrom valid cap post _
        (Gw.goodS_step valid cap _ _ hgood)
    omega
  · intro valid cap id addr evs hm
    rw [EthVM.run, EthVM.runFrom, List.foldl_cons]
    rw [show List.foldl (EthVM.ethStep valid cap)
          (EthVM.ethStep valid cap EthVM.ethInit (EthVM.EEv.auth id addr)) evs =
        EthVM.runFrom valid cap
          (EthVM.ethStep valid cap EthVM.ethInit (EthVM.EEv.auth id addr)) evs
      from rfl]
    refine EthVM.runFrom_cnt_of_no_mention valid cap id evs _ ?_ hm
    simp only [EthVM.ethStep]
    rw [EthVM.auth_releaseLog]
    rfl

/-- Witness for C2 (amended): a concrete capacity-1 run in which the session
minted by the auth is consumed by the following response and is released
exactly once. -/
theorem exactly_once_release_amended_witness :
    cnt "ab" (Gw.sysRun (fun a => a = "A1") 1
      ([Gw.SEv.auth 0 "ab" "A1"] ++ Gw.SEv.respond "ab" :: [])).releaseLog = 1 :=
  exactly_once_release_amended.2.1 (fun a => a = "A1") 1
    [Gw.SEv.auth 0 "ab" "A1"] [] "ab" ⟨"A1", true, 0⟩ (by decide)

/-- C5.  `Authenticate` on an address the validator rejects returns the
normal result `{response: "fail", identifier: null}` as an ordinary value
(not a raised error), makes no `acquireSlot` call, creates no session, and
leaves the whole system state — session store, active count and wait queue —
exactly unchanged (`src/unnamed/part_007` lines 352-369,
`src/unnamed/part_005` lines 169-188). -/
theorem auth_invalid_address_noop (valid : String → Bool) (cap : Int)
    (t : Nat) (id addr : String) (s : Gw.SysState) (hv : valid addr = false) :
    Gw.auth valid cap t id addr s = (Gw.AuthOut.fail, s, 0) := by
  rw [Gw.auth, if_pos hv]

/-- Witness for C5: a validator accepting only `"A1"` applied to a bogus
address leaves the initial state untouched. -/
theorem auth_invalid_address_noop_witness :
    Gw.auth (fun a => a = "A1") 3 0 "ab" "not-a-real-address" Gw.sysInit =
      (Gw.AuthOut.fail, Gw.sysInit, 0) :=
  auth_invalid_address_noop (fun a => a = "A1") 3 0 "ab" "not-a-real-address"
    Gw.sysInit (by decide)

/-- C6 (counterexample).  The claim's error message does not hold for the
cited `Query.account` of `src/blockstream/blockstream_graphql.ts` lines
66-89: for an identifier that neither validates as an address nor is a key
in the store, that resolver fails with `'invalid or missing identifier'`,
not `'invalid or expired session'`. -/
theorem resolve_unknown_message_counterexample :
    (BsG.account (fun _ => false) [] "zz"
        (fun _ => (Except.error "boom" : Except String Unit))).1 =
      Except.error "invalid or missing identifier" ∧
    "invalid or missing identifier" ≠ "invalid or expired session" := by
  constructor
  · rfl
  · decide

/-- C6 (amended).  `Resolve` returns the identifier itself whenever it
validates as an address (no session lookup); otherwise it is looked up in
the session store and the bound address returned.  For an identifier that
is neither a valid address nor a stored key, the request fails with no
chain-adapter call made; the error message is `'invalid or expired
session'` in the `resolveAddress`-based variants (`src/unnamed/part_005`,
second server of `src/unnamed/part_007`), while the inline resolver of
`src/blockstream/blockstream_graphql.ts` (and `src/unnamed/part_012`)
fails with `'invalid or missing identifier'`. -/
theorem resolve_identifier_amended :
    (∀ (valid : String → Bool) (sessions : List (String × Gw.Sess))
        (id : String), valid id = true →
        Gw.resolveAddress valid sessions id = Except.ok id) ∧
    (∀ (valid : String → Bool) (sessions : List (String × Gw.Sess))
        (id : String) (e : Gw.Sess), valid id = false →
        slookup id sessions = some e →
        Gw.resolveAddress valid sessions id = Except.ok e.address) ∧
    (∀ (valid : String → Bool) (sessions : List (String × Gw.Sess))
        (id : String), valid id = false → slookup id sessions = none →
        Gw.resolveAddress valid sessions id =
          Except.error "invalid or expired session") ∧
    (∀ {α : Type} (valid : String → Bool) (sessions : List (String × Gw.Sess))
        (id : String) (adapter : String → Except String α),
        valid id = false → slookup id sessions = none →
        Gw.account valid sessions id adapter =
          (Except.error "invalid or expired session", 0)) ∧
    (∀ {α : Type} (valid : String → Bool)
        (sessions : List (String × String)) (id : String)
        (adapter : String → Except String α),
        ¬ id = "" → valid id = false → slookup id sessions = none →
        BsG.account valid sessions id adapter =
          (Except.error "invalid or missing identifier", sessions, 0)) := by
  refine ⟨?_, ?_, ?_, ?_, ?_⟩
  · intro valid sessions id hv
    rw [Gw.resolveAddress, if_pos hv]
  · intro valid sessions id e hv hlk
    rw [Gw.resolveAddress, if_neg (by rw [hv]; simp), hlk]
  · intro valid sessions id hv hlk
    rw [Gw.resolveAddress, if_neg (by rw [hv]; simp), hlk]
  · intro α valid sessions id adapter hv hlk
    rw [Gw.account, Gw.resolveAddress, if_neg (by rw [hv]; simp), hlk]
  · intro α valid sessions id adapter hid hv hlk
    rw [BsG.account]
    simp only [if_neg hid, hv, Bool.false_eq_true, if_false, hlk]
    rfl

/-- Witness for C6 (amended): a stored session resolves to its bound
address, a fresh raw address resolves to itself, and unknown identifiers
fail in both resolver shapes without an adapter call. -/
theorem resolve_identifier_amended_witness :
    Gw.resolveAddress (fun a => a = "A1") [("ab", ⟨"A1", true, 0⟩)] "A1" =
      Except.ok "A1" ∧
    Gw.resolveAddress (fun a => a = "A1") [("ab", ⟨"A1", true, 0⟩)] "ab" =
      Except.ok "A1" ∧
    Gw.account (fun a => a = "A1") [] "zz"
        (fun _ => (Except.ok 0 : Except String Nat)) =
      (Except.error "invalid or expired session", 0) ∧
    BsG.account (fun a => a = "A1") [] "zz"
        (fun _ => (Except.ok 0 : Except String Nat)) =
      (Except.error "invalid or missing identifier", [], 0) :=
  ⟨resolve_identifier_amended.1 (fun a => a = "A1") [("ab", ⟨"A1", true, 0⟩)]
      "A1" (by decide),
   resolve_identifier_amended.2.1 (fun a => a = "A1")
      [("ab", ⟨"A1", true, 0⟩)] "ab" ⟨"A1", true, 0⟩ (by decide) (by decide),
   resolve_identifier_amended.2.2.2.1 (fun a => a = "A1") [] "zz"
      (fun _ => (Except.ok 0 : Except String Nat)) (by decide) (by decide),
   resolve_identifier_amended.2.2.2.2 (fun a => a = "A1") [] "zz"
      (fun _ => (Except.ok 0 : Except String Nat)) (by decide) (by decide)
      (by decide)⟩

/-- C7.  Session resolution round-trip: authenticating a valid address from
a state with a free slot mints a session token, and resolving that token
immediately afterwards yields exactly the authenticated address.  The
hypotheses record what holds of the real token generator: the fresh 8-hex
token is not itself a valid chain address and has not been minted before
(`randomBytes` uniqueness), and `auth` completes because a slot is free. -/
theorem auth_resolve_roundtrip (valid : String → Bool) (cap : Int) (t : Nat)
    (tok addr : String) (s : Gw.SysState) (hv : valid addr = true)
    (ht : valid tok = false) (hfresh : tok ∉ s.usedIds)
    (hkey : slookup tok s.sessions = none) (hcap : s.pool.active < cap) :
    (Gw.auth valid cap t tok addr s).1 = Gw.AuthOut.success tok ∧
    Gw.resolveAddress valid (Gw.auth valid cap t tok addr s).2.1.sessions tok =
      Except.ok addr := by
  rw [Gw.auth, if_neg (by rw [hv]; simp), if_pos hcap, if_neg hfresh]
  constructor
  · rfl
  · dsimp only
    rw [Gw.resolveAddress, if_neg (by rw [ht]; simp),
      slookup_append_self tok s.sessions _ hkey]

/-- Witness for C7: authenticating `"A1"` from the initial capacity-3 state
with fresh token `"ab"`, then resolving `"ab"`, returns `"A1"`. -/
theorem auth_resolve_roundtrip_witness :
    (Gw.auth (fun a => a = "A1") 3 5 "ab" "A1" Gw.sysInit).1 =
      Gw.AuthOut.success "ab" ∧
    Gw.resolveAddress (fun a => a = "A1")
        (Gw.auth (fun a => a = "A1") 3 5 "ab" "A1" Gw.sysInit).2.1.sessions
        "ab" = Except.ok "A1" :=
  auth_resolve_roundtrip (fun a => a = "A1") 3 5 "ab" "A1" Gw.sysInit
    (by decide) (by decide) (by decide) (by decide) (by decide)

namespace Gw

theorem sweep_lookup_core (t : Nat) (id : String) (e : Sess) :
    ∀ l : List (String × Sess), slookup id l = some e →
    cnt id (l.map Prod.fst) ≤ 1 →
    (30000 < t - e.createdAt →
       slookup id (l.filter (fun p => ! isExpired t p)) = none ∧
       cnt id ((l.filter (isExpired t)).map Prod.fst) = 1) ∧
    (¬ 30000 < t - e.createdAt →
       slookup id (l.filter (fun p => ! isExpired t p)) = some e ∧
       cnt id ((l.filter (isExpired t)).map Prod.fst) = 0) := by
  intro l
  induction l with
  | nil =>
      intro h
      simp [slookup] at h
  | cons p tl ih =>
      intro hlk hle
      rw [List.map_cons, cnt_cons] at hle
      rw [slookup] at hlk
      by_cases hp : p.1 = id
      · rw [if_pos hp] at hlk
        rw [if_pos hp] at hle
        injection hlk with hlk
        have hcz : cnt id (tl.map Prod.fst) = 0 := by omega
        have htlf_none :
            slookup id (tl.filter (fun q => ! isExpired t q)) = none := by
          apply slookup_eq_none_of_cnt_zero
          have := cnt_filter_map_le id (fun q => ! isExpired t q) Prod.fst tl
          omega
        have htlf_cnt : cnt id ((tl.filter (isExpired t)).map Prod.fst) = 0 := by
          have := cnt_filter_map_le id (isExpired t) Prod.fst tl
          omega
        constructor
        · intro hexp
          have hexpb : isExpired t p = true := by
            simp only [isExpired]
            refine decide_eq_true ?_
            rw [hlk]
            exact hexp
          constructor
          · rw [List.filter_cons, hexpb]
            simpa using htlf_none
          · rw [List.filter_cons, hexpb]
            simp only [if_true, List.map_cons, cnt_cons, if_pos hp, htlf_cnt]
        · intro hnexp
          have hexpb : isExpired t p = false := by
            simp only [isExpired]
            refine decide_eq_false ?_
            rw [hlk]
            exact hnexp
          constructor
          · rw [List.filter_cons, hexpb]
            simp only [Bool.not_false, if_true, slookup, if_pos hp, hlk]
          · rw [List.filter_cons, hexpb]
            simpa using htlf_cnt
      · rw [if_neg hp] at hlk
        rw [if_neg hp] at hle
        have hle' : cnt id (tl.map Prod.fst) ≤ 1 := by omega
        obtain ⟨ih1, ih2⟩ := ih hlk hle'
        have hcase : ∀ r : Bool, isExpired t p = r →
            slookup id ((p :: tl).filter (fun q => ! isExpired t q)) =
              slookup id (tl.filter (fun q => ! isExpired t q)) ∧
            cnt id (((p :: tl).filter (isExpired t)).map Prod.fst) =
              cnt id ((tl.filter (isExpired t)).map Prod.fst) := by
          intro r hr
          cases r with
          | true =>
              constructor
              · rw [List.filter_cons, hr]
                simp
              · rw [List.filter_cons, hr]
                simp only [if_true, List.map_cons, cnt_cons, if_neg hp]
                omega
          | false =>
              constructor
              · rw [List.filter_cons, hr]
                simp only [Bool.not_false, if_true, slookup, if_neg hp]
              · rw [List.filter_cons, hr]
                simp
        obtain ⟨hsl, hct⟩ := hcase (isExpired t p) rfl
        constructor
        · intro hexp
          obtain ⟨ha, hb⟩ := ih1 hexp
          exact ⟨by rw [hsl]; exact ha, by rw [hct]; exact hb⟩
        · intro hnexp
          obtain ⟨ha, hb⟩ := ih2 hnexp
          exact ⟨by rw [hsl]; exact ha, by rw [hct]; exact hb⟩

end Gw

/-- C8.  Expiry correctness of the sweeper (`src/unnamed/part_007` lines
405-414, `src/unnamed/part_005` lines 224-233).  First part: on any
reachable state, a sweep at time `t` removes a stored session and attributes
exactly one release to it precisely when `t - createdAt > 30000` (TTL 30 s),
and leaves it stored with no release otherwise — the sweeper reclaims
exactly the expired sessions.  Second part: a session authenticated at time
`T` and never otherwise consumed is gone from the store, its slot released
(`active` back to `0`) and exactly one release logged, by the sweeper tick
at `10000 * (T / 10000 + 4)` — a multiple of the 10-second interval that is
strictly past `T + 30000` and at most `T + 40000`. -/
theorem expiry_sweeper_correct :
    (∀ (valid : String → Bool) (cap : Int) (evs : List Gw.SEv) (t : Nat)
        (id : String) (e : Gw.Sess),
        slookup id (Gw.sysRun valid cap evs).sessions = some e →
        (30000 < t - e.createdAt →
          slookup id (Gw.sweep t (Gw.sysRun valid cap evs)).sessions = none ∧
          cnt id (Gw.sweep t (Gw.sysRun valid cap evs)).releaseLog =
            cnt id (Gw.sysRun valid cap evs).releaseLog + 1) ∧
        (¬ 30000 < t - e.createdAt →
          slookup id (Gw.sweep t (Gw.sysRun valid cap evs)).sessions = some e ∧
          cnt id (Gw.sweep t (Gw.sysRun valid cap evs)).releaseLog =
            cnt id (Gw.sysRun valid cap evs).releaseLog)) ∧
    (∀ (valid : String → Bool) (cap : Int) (T : Nat) (id addr : String),
        valid addr = true → 0 < cap →
        slookup id (Gw.sysRun valid cap [Gw.SEv.auth T id addr,
            Gw.SEv.sweep (10000 * (T / 10000 + 4))]).sessions = none ∧
        (Gw.sysRun valid cap [Gw.SEv.auth T id addr,
            Gw.SEv.sweep (10000 * (T / 10000 + 4))]).releaseLog = [id] ∧
        (Gw.sysRun valid cap [Gw.SEv.auth T id addr,
            Gw.SEv.sweep (10000 * (T / 10000 + 4))]).pool.active = 0 ∧
        T + 30000 < 10000 * (T / 10000 + 4) ∧
        10000 * (T / 10000 + 4) ≤ T + 40000) := by
  constructor
  · intro valid cap evs t id e hlk
    have hgood := Gw.goodS_sysRun valid cap evs
    have hk1 : cnt id ((Gw.sysRun valid cap evs).sessions.map Prod.fst) ≤ 1 := by
      have h2 := hgood.2 id
      by_cases hiu : id ∈ (Gw.sysRun valid cap evs).usedIds
      · rw [if_pos hiu] at h2
        omega
      · rw [if_neg hiu] at h2
        omega
    obtain ⟨hc1, hc2⟩ := Gw.sweep_lookup_core t id e _ hlk hk1
    constructor
    · intro hexp
      obtain ⟨ha, hb⟩ := hc1 hexp
      refine ⟨ha, ?_⟩
      simp only [Gw.sweep]
      rw [cnt_append, hb]
    · intro hnexp
      obtain ⟨ha, hb⟩ := hc2 hnexp
      refine ⟨ha, ?_⟩
      simp only [Gw.sweep]
      rw [cnt_append, hb]
      omega
  · intro valid cap T id addr hv hcap
    have harith : T + 30000 < 10000 * (T / 10000 + 4) ∧
        10000 * (T / 10000 + 4) ≤ T + 40000 := by omega
    have hs1 : Gw.sysStep valid cap Gw.sysInit (Gw.SEv.auth T id addr) =
        { sessions := [(id, ⟨addr, true, T⟩)],
          pool := { active := 1, queue := [], nextId := 1, handed := [],
                    enqueued := [] },
          releaseLog := [], usedIds := [id] } := by
      simp only [Gw.sysStep, Gw.auth, Gw.sysInit]
      rw [if_neg (by rw [hv]; simp)]
      rw [if_pos (by simpa [CPool.initState] using hcap)]
      rw [if_neg (by simp)]
      simp [CPool.acquireSlot, CPool.initState, if_pos hcap]
    have hexpb : Gw.isExpired (10000 * (T / 10000 + 4)) (id, ⟨addr, true, T⟩) =
        true := by
      simp only [Gw.isExpired]
      refine decide_eq_true ?_
      dsimp only
      omega
    have hrun : Gw.sysRun valid cap [Gw.SEv.auth T id addr,
        Gw.SEv.sweep (10000 * (T / 10000 + 4))] =
        Gw.sweep (10000 * (T / 10000 + 4))
          (Gw.sysStep valid cap Gw.sysInit (Gw.SEv.auth T id addr)) := rfl
    rw [hrun, hs1, Gw.sweep]
    rw [List.filter_cons, List.filter_cons, hexpb]
    simp only [Bool.not_true, Bool.false_eq_true, if_false, if_true,
      List.filter_nil]
    refine ⟨rfl, by simp, ?_, harith.1, harith.2⟩
    simp only [List.map_cons, List.map_nil, List.foldl_cons, List.foldl_nil]
    rw [CPool.releaseSlot]
    norm_num

/-- Witness for C8: a session created at `T = 12345` and never consumed is
reclaimed by the sweep at `50000 = 10000 * (12345 / 10000 + 4)`, within
`T + 40000`. -/
theorem expiry_sweeper_correct_witness :
    slookup "ab" (Gw.sysRun (fun a => a = "A1") 3 [Gw.SEv.auth 12345 "ab" "A1",
        Gw.SEv.sweep (10000 * (12345 / 10000 + 4))]).sessions = none ∧
    (Gw.sysRun (fun a => a = "A1") 3 [Gw.SEv.auth 12345 "ab" "A1",
        Gw.SEv.sweep (10000 * (12345 / 10000 + 4))]).releaseLog = ["ab"] ∧
    (Gw.sysRun (fun a => a = "A1") 3 [Gw.SEv.auth 12345 "ab" "A1",
        Gw.SEv.sweep (10000 * (12345 / 10000 + 4))]).pool.active = 0 ∧
    12345 + 30000 < 10000 * (12345 / 10000 + 4) ∧
    10000 * (12345 / 10000 + 4) ≤ 12345 + 40000 :=
  expiry_sweeper_correct.2 (fun a => a = "A1") 3 12345 "ab" "A1" (by decide)
    (by decide)

/-- C9 (counterexample).  The ethvm `Query.balance` catch-handler
(`src/ethvm/ethvm_graphql.ts` lines 88-112) does not surface the adapter's
message verbatim when the REST upstream answered with an error response: it
rebuilds the message as `Upstream <status>: <body message>`. -/
theorem adapter_error_verbatim_counterexample :
    EthG.balance (α := Unit)
        (Except.error ⟨"Request failed with status code 500", some (500, "boom")⟩) =
      (Except.error "Upstream 500: boom", 1) ∧
    "Upstream 500: boom" ≠ "boom" ∧
    "Upstream 500: boom" ≠ "Request failed with status code 500" := by
  refine ⟨rfl, by decide, by decide⟩

/-- C9 (amended).  The dispatchers make exactly one adapter call and never
retry.  The `resolveAddress`-based dispatchers (`src/unnamed/part_005`,
second server of `src/unnamed/part_007`) propagate the adapter's error
message verbatim; the blockstream catch-handler rethrows the message
verbatim whenever it is nonempty (substituting a fixed fallback only for an
empty message); the ethvm variant surfaces `err.message` verbatim only when
the failure carries no upstream HTTP response, and otherwise reformats it
as `Upstream <status>: <body message>`. -/
theorem adapter_error_passthrough_amended :
    (∀ {α : Type} (valid : String → Bool)
        (sessions : List (String × Gw.Sess)) (id m : String)
        (adapter : String → Except String α),
        valid id = true → adapter id = Except.error m →
        Gw.account valid sessions id adapter = (Except.error m, 1)) ∧
    (∀ {α : Type} (valid : String → Bool)
        (sessions : List (String × String)) (id m : String)
        (adapter : String → Except String α),
        ¬ id = "" → valid id = true → adapter id = Except.error m →
        ¬ m = "" →
        BsG.account valid sessions id adapter =
          (Except.error m, sessions, 1)) ∧
    (∀ {α : Type} (e : EthG.AxiosErr), e.response = none → ¬ e.message = "" →
        EthG.balance (α := α) (Except.error e) =
          (Except.error e.message, 1)) ∧
    (∀ {α : Type} (e : EthG.AxiosErr) (st : Nat) (bm : String),
        e.response = some (st, bm) →
        EthG.balance (α := α) (Except.error e) =
          (Except.error ("Upstream " ++ toString st ++ ": " ++ bm), 1)) := by
  refine ⟨?_, ?_, ?_, ?_⟩
  · intro α valid sessions id m adapter hv had
    rw [Gw.account, Gw.resolveAddress, if_pos hv]
    dsimp only
    rw [had]
  · intro α valid sessions id m adapter hid hv had hm
    rw [BsG.account]
    simp only [if_neg hid, hv, if_true, had, BsG.catchMsg, if_neg hm]
  · intro α e hr hm
    rw [EthG.balance, EthG.balanceMsg, hr]
    rw [if_neg hm]
  · intro α e st bm hr
    rw [EthG.balance, EthG.balanceMsg, hr]

/-- Witness for C9 (amended): a failing adapter's message `"boom"` passes
through the part_005/part_007 dispatcher and the blockstream catch-handler
verbatim, and an ethvm failure without an HTTP response passes through
verbatim. -/
theorem adapter_error_passthrough_amended_witness :
    Gw.account (fun a => a = "A1") [] "A1"
        (fun _ => (Except.error "boom" : Except String Nat)) =
      (Except.error "boom", 1) ∧
    BsG.account (fun a => a = "A1") [] "A1"
        (fun _ => (Except.error "boom" : Except String Nat)) =
      (Except.error "boom", [], 1) ∧
    EthG.balance (α := Nat) (Except.error ⟨"boom", none⟩) =
      (Except.error "boom", 1) :=
  ⟨adapter_error_passthrough_amended.1 (fun a => a = "A1") [] "A1" "boom"
      (fun _ => (Except.error "boom" : Except String Nat)) (by decide) rfl,
   adapter_error_passthrough_amended.2.1 (fun a => a = "A1") [] "A1" "boom"
      (fun _ => (Except.error "boom" : Except String Nat)) (by decide)
      (by decide) rfl (by decide),
   adapter_error_passthrough_amended.2.2.1 ⟨"boom", none⟩ rfl (by decide)⟩

/-- C10.  Stateless direct querying is a no-op on shared state: a query
whose identifier validates as an address and is not a key in the session
store leaves the session store, the `heldIdentifiers` set, the slot pool
(active count, slot flags and wait queue) and the release log exactly
unchanged, in the ethvm variant (`src/unnamed/part_012` lines 83-140 with
its plugin), in the response hook of the sweeper variants
(`src/unnamed/part_005` lines 198-218, `src/unnamed/part_007` lines
379-397), and in the blockstream resolver's session store
(`src/blockstream/blockstream_graphql.ts` lines 66-89). -/
theorem stateless_query_frame :
    (∀ (valid : String → Bool) (identifier : String) (ok : Bool)
        (s : EthVM.EthState), valid identifier = true →
        slookup identifier s.sessions = none →
        EthVM.queryRequest valid identifier ok s = s) ∧
    (∀ (s : Gw.SysState) (id : String), slookup id s.sessions = none →
        Gw.willSendResponse s id = s) ∧
    (∀ {α : Type} (valid : String → Bool)
        (sessions : List (String × String)) (id : String)
        (adapter : String → Except String α), ¬ id = "" →
        valid id = true → slookup id sessions = none →
        (BsG.account valid sessions id adapter).2.1 = sessions) := by
  refine ⟨?_, ?_, ?_⟩
  · intro valid identifier ok s hv hlk
    rw [EthVM.queryRequest]
    rw [show (if valid identifier then some identifier
        else slookup identifier s.sessions : Option String) = some identifier
      from if_pos hv]
    rw [EthVM.pluginRelease, hlk]
    simp
  · intro s id hlk
    rw [Gw.willSendResponse, hlk]
  · intro α valid sessions id adapter hid hv hlk
    rw [BsG.account]
    simp only [if_neg hid, hv, if_true, hlk, Option.isSome_none,
      Bool.false_eq_true, if_false]
    cases had : adapter id with
    | error m => rfl
    | ok v => rfl

/-- Witness for C10: querying with the raw address `"A1"` (not a stored
key) in each variant, on a state holding an unrelated session. -/
theorem stateless_query_frame_witness :
    EthVM.queryRequest (fun a => a = "A1") "A1" true
        { sessions := [("cd", "A2")], held := ["cd"],
          pool := { active := 1, queue := [], nextId := 1, handed := [],
                    enqueued := [] },
          releaseLog := [], usedIds := ["cd"] } =
      { sessions := [("cd", "A2")], held := ["cd"],
        pool := { active := 1, queue := [], nextId := 1, handed := [],
                  enqueued := [] },
        releaseLog := [], usedIds := ["cd"] } ∧
    Gw.willSendResponse Gw.sysInit "A1" = Gw.sysInit :=
  ⟨stateless_query_frame.1 (fun a => a = "A1") "A1" true _ (by decide)
      (by decide),
   stateless_query_frame.2.1 Gw.sysInit "A1" (by decide)⟩
